import Mathlib

/-!
Verification of the OCD file export codec (`ocd_file_export.cpp`, two
revisions) against its natural-language specification.

The development shallowly embeds the pure structure of the exporter:

* the fixed-point coordinate conversion `convertPointMember`;
* the icon palette quantizers `getPaletteColorV6` / `getPaletteColorV9`;
* the point-symbol pattern size computation (`getPatternSize`) and the
  pattern serialization (`exportPattern`), modelled at byte-count level;
* the symbol-number assignment of `setupBaseSymbol` (table scan-and-increment);
* the export pipeline `exportImplementation` (setup, symbols, objects) with
  the combined-symbol decomposition of `exportCombinedSymbol`, warnings, and
  the V8 fatal color-limit check;
* the color index conversion `convertColor` and the object index entry size
  computation of `exportObjectCommon`.

Machine integers are modelled as `Int` with explicit wrapping where the C++
code casts (`asInt32` below); C++ `/` on int is `Int.tdiv`.
-/

namespace OcdExport

/-! ## Numeric conversion layer (C1) -/

/-- Reinterpretation of an unsigned 32-bit value (given as an integer in
`[0, 2^32)` after the masking performed by the caller) as a signed `qint32`. -/
def asInt32 (x : ℤ) : ℤ :=
  if 2147483648 ≤ x % 4294967296 then x % 4294967296 - 4294967296 else x % 4294967296

/-- Model of `convertPointMember` (`ocd_file_export.cpp:90`, `part_000:99`):
`(value < -5) ? qint32(0x80000000u | ((0x7fffffu & quint32((value-4)/10)) << 8))
             : qint32((0x7fffffu & quint32((value+5)/10)) << 8)`.
C++ integer division truncates towards zero (`Int.tdiv`); the `quint32` cast
followed by the `0x7fffffu` mask keeps the low 23 bits (`% 8388608` of the
Euclidean remainder), the shift by 8 is `* 256`, and the `0x80000000u` bit is
`+ 2147483648` before the final signed reinterpretation. -/
def convertPointMember (value : ℤ) : ℤ :=
  if value < -5 then
    asInt32 (2147483648 + ((value - 4).tdiv 10 % 8388608) * 256)
  else
    asInt32 (((value + 5).tdiv 10 % 8388608) * 256)

/-- For coordinates whose scaled value fits the 24-bit field, the encoded value
is exactly `256 * floor((v+5)/10)`: round half up for both signs. -/
theorem convertPointMember_eq_floor (v : ℤ)
    (h1 : -83886080 ≤ v + 5) (h2 : v + 5 < 83886080) :
    convertPointMember v = 256 * ((v + 5) / 10) := by
  unfold convertPointMember asInt32
  rcases lt_or_le v (-5) with hv | hv
  · have htd : (v - 4).tdiv 10 = (v + 5) / 10 := by
      have h4 : (0 : ℤ) ≤ 4 - v := by omega
      have := Int.neg_tdiv (4 - v) 10
      have h5 : (4 - v).tdiv 10 = (4 - v) / 10 := Int.tdiv_eq_ediv h4 (by norm_num)
      have h6 : (v - 4 : ℤ) = -(4 - v) := by ring
      rw [h6, this, h5]
      omega
    rw [if_pos hv, htd]
    omega
  · have htd : (v + 5).tdiv 10 = (v + 5) / 10 :=
      Int.tdiv_eq_ediv (by omega) (by norm_num)
    rw [if_neg (by omega), htd]
    omega

/-- C1 (counterexample): the claim asserts a boundary transition at every
multiple of 5 in [-20, 20], but at the multiple 0 the encoded value does not
change: `convertPointMember` maps -1, 0 and +1 all to 0 (likewise at ±10 and
±20); transitions only happen at odd multiples of 5. -/
theorem convertPointMember_no_transition_at_zero :
    (5 ∣ (0 : ℤ)) ∧ -20 ≤ (0 : ℤ) ∧ (0 : ℤ) ≤ 20 ∧
    convertPointMember (0 - 1) = convertPointMember 0 ∧
    convertPointMember (0 + 1) = convertPointMember 0 := by
  refine ⟨⟨0, by norm_num⟩, by norm_num, by norm_num, by decide, by decide⟩

/-- C1 (amended): for every coordinate whose scaled value fits the 24-bit
field, `convertPointMember v` encodes the fixed-point value `floor((v+5)/10)`
(round half up for both signs, scaled by 256 into bits 8..31); in particular
-5 maps to 0, -6 to -1 units and +5 to +1 units.  Among the multiples of 5 in
[-20, 20] a boundary transition occurs exactly at the odd multiples of 5
(±5, ±15): the rounding boundaries lie at `v ≡ 5 (mod 10)`, not at every
multiple of 5. -/
theorem convertPointMember_round_half_up :
    (∀ v : ℤ, -83886080 ≤ v + 5 → v + 5 < 83886080 →
      convertPointMember v = 256 * ((v + 5) / 10)) ∧
    convertPointMember (-5) = 0 ∧
    convertPointMember (-6) = -256 ∧
    convertPointMember 5 = 256 ∧
    (∀ m : ℤ, -20 ≤ m → m ≤ 20 → 5 ∣ m →
      ((convertPointMember m ≠ convertPointMember (m - 1)) ↔ ¬(10 ∣ m))) := by
  refine ⟨convertPointMember_eq_floor, by decide, by decide, by decide, ?_⟩
  intro m hm1 hm2 hm5
  rw [convertPointMember_eq_floor m (by omega) (by omega),
      convertPointMember_eq_floor (m - 1) (by omega) (by omega)]
  omega

/-- C1 (witness): the amended theorem applied at the concrete inputs 15
(general encoding) and 5 (transition at an odd multiple of 5). -/
theorem convertPointMember_round_half_up_witness :
    convertPointMember 15 = 256 * ((15 + 5) / 10) ∧
    ((convertPointMember 5 ≠ convertPointMember (5 - 1)) ↔ ¬(10 ∣ (5 : ℤ))) :=
  ⟨convertPointMember_round_half_up.1 15 (by norm_num) (by norm_num),
   convertPointMember_round_half_up.2.2.2.2 5 (by norm_num) (by norm_num) (by norm_num)⟩

/-! ## Palette quantizers (C10)

The two icon quantizers `getPaletteColorV6` (`ocd_file_export.cpp:138`) and
`getPaletteColorV9` (`ocd_file_export.cpp:247`).  The V6 quantizer calls Qt's
`QColor::toHsv` and `qGray`; these third-party helpers are modelled with exact
integer arithmetic (`hsvOf`, `qGray` below).  On the palette inputs relevant
here the conversion is exact: the source itself lists the HSV values of the
original 16 RGB palette entries, and `hsvOf` reproduces that table. -/

/-- Squaring helper, mirroring the local lambda `sq` of both quantizers. -/
def sq (n : ℤ) : ℤ := n * n

/-- Model of Qt's `qGray(r, g, b) = (r * 11 + g * 16 + b * 5) / 32`. -/
def qGray (r g b : ℤ) : ℤ := (r * 11 + g * 16 + b * 5) / 32

/-- Model of Qt's RGB to HSV conversion as used through `QColor::toHsv`:
returns (hue in degrees with -1 for achromatic, saturation 0..255,
value 0..255).  Exact on the 16 palette colors, whose resulting HSV triples
are pinned by the table inside `getPaletteColorV6` itself. -/
def hsvOf (r g b : ℤ) : ℤ × ℤ × ℤ :=
  let mx := max r (max g b)
  let mn := min r (min g b)
  let d := mx - mn
  if d = 0 then (-1, 0, mx)
  else
    let s := 255 * d / mx
    let h :=
      if mx = r then 60 * (g - b) / d
      else if mx = g then 60 * (b - r) / d + 120
      else 60 * (r - g) / d + 240
    (if h < 0 then h + 360 else h, s, mx)

/-- The 16-entry HSV palette table of `getPaletteColorV6`. -/
def paletteV6 : List (ℤ × ℤ × ℤ) :=
  [(-1, 0, 0), (0, 255, 128), (120, 255, 128), (60, 255, 128),
   (240, 255, 128), (300, 255, 128), (180, 255, 128), (-1, 0, 128),
   (-1, 0, 192), (0, 255, 255), (120, 255, 255), (60, 255, 255),
   (240, 255, 255), (300, 255, 255), (180, 255, 255), (-1, 0, 255)]

/-- The 16 original RGB palette colors (listed in the generator block of the
source) whose HSV images form `paletteV6`. -/
def origPaletteV6 : List (ℤ × ℤ × ℤ) :=
  [(0, 0, 0), (128, 0, 0), (0, 128, 0), (128, 128, 0),
   (0, 0, 128), (128, 0, 128), (0, 128, 128), (128, 128, 128),
   (192, 192, 192), (255, 0, 0), (0, 255, 0), (255, 255, 0),
   (0, 0, 255), (255, 0, 255), (0, 255, 255), (255, 255, 255)]

/-- The manual per-entry distance multipliers of `getPaletteColorV6`. -/
def tweakV6 (i : ℕ) (d : ℤ) : ℤ :=
  if i = 1 then d * 3
  else if i = 3 then d * 4
  else if i = 11 then d * 4
  else if i = 9 then d * 6
  else d * 2

/-- The weighted HSV distance scan of `getPaletteColorV6` over the fixed
candidate index list; first strictly smaller distance wins. -/
def scanV6 (h s v : ℤ) : List ℕ → ℕ → ℤ → ℕ
  | [], bestIndex, _ => bestIndex
  | i :: rest, bestIndex, bestDist =>
    let p := paletteV6.getD i (0, 0, 0)
    let hueDist := |h - p.1|
    let d := tweakV6 i (10 * sq (min hueDist (360 - hueDist)) + sq (s - p.2.1) + sq (v - p.2.2))
    if d < bestDist then scanV6 h s v rest i d
    else scanV6 h s v rest bestIndex bestDist

/-- Model of `getPaletteColorV6`: fast path for pure white, gray branch by
brightness thresholds, otherwise the weighted scan over the 12 chromatic
candidates with initial best distance 2100000. -/
def getPaletteColorV6 (r g b : ℤ) : ℕ :=
  if r = 255 ∧ g = 255 ∧ b = 255 then 15
  else
    let hsv := hsvOf r g b
    if hsv.1 = -1 ∨ hsv.2.1 < 32 then
      if 192 ≤ qGray r g b then 8
      else if 128 ≤ qGray r g b then 7
      else 0
    else
      scanV6 hsv.1 hsv.2.1 hsv.2.2 [1, 2, 3, 4, 5, 6, 9, 10, 11, 12, 13, 14] 0 2100000

/-- The color levels of the uniform 5x5x5 cube palette of
`getPaletteColorV9`, as in its generator block. -/
def colorLevels : List ℤ := [0, 64, 128, 192, 255]

/-- The 125-entry RGB palette of `getPaletteColorV9`: the uniform cube listed
red-major in the source. -/
def paletteV9 : List (ℤ × ℤ × ℤ) :=
  colorLevels.flatMap fun r => colorLevels.flatMap fun g => colorLevels.map fun b => (r, g, b)

/-- The weighted squared-Euclidean scan of `getPaletteColorV9` (weights
2:4:3 for R:G:B); first strictly smaller distance wins. -/
def scanV9 (r g b : ℤ) : List (ℤ × ℤ × ℤ) → ℕ → ℕ → ℤ → ℕ
  | [], _, bestIndex, _ => bestIndex
  | p :: rest, i, bestIndex, bestDist =>
    let d := 2 * sq (r - p.1) + 4 * sq (g - p.2.1) + 3 * sq (b - p.2.2)
    if d < bestDist then scanV9 r g b rest (i + 1) i d
    else scanV9 r g b rest (i + 1) bestIndex bestDist

/-- Model of `getPaletteColorV9`: fast path for pure white, otherwise the
exhaustive scan over the 125-entry cube with initial best distance 10000. -/
def getPaletteColorV9 (r g b : ℤ) : ℕ :=
  if r = 255 ∧ g = 255 ∧ b = 255 then 124
  else scanV9 r g b paletteV9 0 0 10000

/-- Palette entry accessors used to state idempotence. -/
def origEntryV6 (i : ℕ) : ℤ × ℤ × ℤ := origPaletteV6.getD i (0, 0, 0)

/-- Entry accessor for the 125-color palette. -/
def entryV9 (i : ℕ) : ℤ × ℤ × ℤ := paletteV9.getD i (0, 0, 0)

set_option maxRecDepth 100000 in
/-- C10: both palette quantizers are idempotent: quantizing an RGB value that
is already a palette entry returns that entry's own index — for all 16 entries
of the V6 palette (via their original RGB values) and all 125 entries of the
V9 cube; in particular pure white returns index 15 resp. 124. -/
theorem palette_quantizers_idempotent :
    (∀ i : Fin 16,
      getPaletteColorV6 (origEntryV6 i).1 (origEntryV6 i).2.1 (origEntryV6 i).2.2 = i) ∧
    (∀ i : Fin 125,
      getPaletteColorV9 (entryV9 i).1 (entryV9 i).2.1 (entryV9 i).2.2 = i) ∧
    getPaletteColorV6 255 255 255 = 15 ∧
    getPaletteColorV9 255 255 255 = 124 := by
  refine ⟨by decide!, by decide!, by decide, by decide!⟩

/-! ## Point symbol patterns (C2)

`getPatternSize` (`ocd_file_export.cpp:430`, `part_000:439`) computes the
pattern byte count in closed form; `exportPattern` / `exportSubPattern`
(`ocd_file_export.cpp:981`, `part_000:994`) append the actual bytes.  The
byte layout is modelled at byte-count level: each coordinate
(`Ocd::OcdPoint32`) occupies 8 bytes, and each pattern element header
(`Format::Element`) occupies 16 bytes.  Modelled from the spec: the element
header structs live in `ocd_types_v*.h` (not in src); per the spec a pattern
element is rendered as `{type, color, size fields, coordinate count}` followed
by its coordinates, and the header occupies two coordinate-pair units (16
bytes) in every supported format version. -/

/-- The element symbol of one point-symbol pattern element: a point symbol
(only its inner/outer ring settings are consulted), a line symbol or an area
symbol.  Other symbol types cannot occur as pattern elements
(`Q_UNREACHABLE` in `exportSubPattern`). -/
inductive ElemKind where
  | point : ℤ → Option ℤ → ℤ → Option ℤ → ElemKind
  | line : Option ℤ → ℤ → ElemKind
  | area : Option ℤ → ElemKind
deriving DecidableEq

/-- One pattern element: its symbol and the raw coordinates of its element
object. -/
structure PatternElement where
  kind : ElemKind
  coords : List (ℤ × ℤ)
deriving DecidableEq

/-- A point symbol: inner dot radius/color, outer ring width/color, and the
list of pattern elements. -/
structure PointSymbolData where
  innerRadius : ℤ
  innerColor : Option ℤ
  outerWidth : ℤ
  outerColor : Option ℤ
  elements : List PatternElement
deriving DecidableEq

/-- The per-element factor of `getPatternSize`: 1 for line/area elements, and
for point elements the number of rings that will actually be emitted (inner
dot when `inner_radius > 0` and an inner color is set, outer circle when
`outer_width > 0` and an outer color is set). -/
def elementFactor : ElemKind → ℕ
  | .point innerRadius innerColor outerWidth outerColor =>
    (if 0 < innerRadius ∧ innerColor.isSome then 1 else 0) +
    (if 0 < outerWidth ∧ outerColor.isSome then 1 else 0)
  | .line _ _ => 1
  | .area _ => 1

/-- Model of `getPatternSize`: the closed-form pattern size in bytes — each
element contributes `factor * (2 + #coords)` coordinate-pair units, the
symbol's own inner dot and outer ring contribute `2 + 1` units each, and a
unit is `sizeof(Ocd::OcdPoint32) = 8` bytes. -/
def getPatternSize (p : PointSymbolData) : ℕ :=
  ((p.elements.map fun e => elementFactor e.kind * (2 + e.coords.length)).sum
    + (if 0 < p.innerRadius ∧ p.innerColor.isSome then 2 + 1 else 0)
    + (if 0 < p.outerWidth ∧ p.outerColor.isSome then 2 + 1 else 0)) * 8

/-- Model of `exportSubPattern` at byte level: appends, to a buffer of the
given length, one 16-byte element header plus 8 bytes per coordinate for each
element actually emitted, and returns the new buffer length. -/
def exportSubPattern (kind : ElemKind) (ncoords : ℕ) (buffer : ℕ) : ℕ :=
  match kind with
  | .point innerRadius innerColor outerWidth outerColor =>
    let buffer := if 0 < innerRadius ∧ innerColor.isSome then buffer + 16 + 8 * ncoords else buffer
    if 0 < outerWidth ∧ outerColor.isSome then buffer + 16 + 8 * ncoords else buffer
  | .line _ _ => buffer + 16 + 8 * ncoords
  | .area _ => buffer + 16 + 8 * ncoords

/-- Model of `exportPattern` at byte level: first the symbol's own rings (as a
sub-pattern over the single default coordinate `{ {} }`, with the point symbol
itself as element symbol), then each pattern element in order. -/
def exportPattern (p : PointSymbolData) (buffer : ℕ) : ℕ :=
  let buffer :=
    exportSubPattern (.point p.innerRadius p.innerColor p.outerWidth p.outerColor) 1 buffer
  p.elements.foldl (fun b e => exportSubPattern e.kind e.coords.length b) buffer

/-- Model of `exportPointSymbol` at byte level: the record is the header
(`sizeof(OcdPointSymbol) - sizeof(Element)` bytes, a per-format constant
`headerSize`) followed by the pattern bytes. -/
def exportPointSymbolBytes (headerSize : ℕ) (p : PointSymbolData) : ℕ :=
  exportPattern p headerSize

/-- Helper: one `exportSubPattern` call appends exactly
`8 * factor * (2 + #coords)` bytes. -/
theorem exportSubPattern_bytes (kind : ElemKind) (n buffer : ℕ) :
    exportSubPattern kind n buffer = buffer + elementFactor kind * (2 + n) * 8 := by
  cases kind with
  | point ir ic ow oc =>
    simp only [exportSubPattern, elementFactor]
    by_cases h1 : 0 < ir ∧ ic.isSome <;> by_cases h2 : 0 < ow ∧ oc.isSome <;>
      simp [h1, h2] <;> ring
  | line c w => simp only [exportSubPattern, elementFactor]; ring
  | area c => simp only [exportSubPattern, elementFactor]; ring

/-- Helper: appending a pattern to any buffer grows it by exactly
`getPatternSize`. -/
theorem exportPattern_eq (p : PointSymbolData) (buffer : ℕ) :
    exportPattern p buffer = buffer + getPatternSize p := by
  have fold : ∀ (l : List PatternElement) (b : ℕ),
      l.foldl (fun b e => exportSubPattern e.kind e.coords.length b) b
        = b + (l.map fun e => elementFactor e.kind * (2 + e.coords.length)).sum * 8 := by
    intro l
    induction l with
    | nil => intro b; simp
    | cons e rest ih =>
      intro b
      simp only [List.foldl_cons, List.map_cons, List.sum_cons]
      rw [ih, exportSubPattern_bytes]
      ring
  unfold exportPattern getPatternSize
  rw [fold, exportSubPattern_bytes]
  simp only [elementFactor]
  by_cases h1 : 0 < p.innerRadius ∧ p.innerColor.isSome <;>
    by_cases h2 : 0 < p.outerWidth ∧ p.outerColor.isSome <;>
      simp [h1, h2] <;> ring

/-- C2: for every point symbol the closed-form `getPatternSize` equals the
number of bytes actually appended by `exportPattern`, so the encoded
point-symbol record's total byte length is the header size plus the
precomputed pattern size stored in the record's size fields — for every
format version's header size. -/
theorem pattern_size_matches_export (p : PointSymbolData) (headerSize : ℕ) :
    exportPattern p 0 = getPatternSize p ∧
    exportPointSymbolBytes headerSize p = headerSize + getPatternSize p :=
  ⟨(exportPattern_eq p 0).trans (Nat.zero_add _), exportPattern_eq p headerSize⟩

/-! ## Symbol number assignment (C3)

`setupBaseSymbol` (`ocd_file_export.cpp:893`, `part_000:906`) packs the two
requested number components into one format number (`0.0` promoted to `1`),
then increments it while it collides with any value currently stored in the
`symbol_numbers` map, and finally stores it under the symbol's key —
overwriting any previous entry for the same symbol. -/

/-- Shallow model of `std::map` insertion-or-assignment `m[k] = v` on an
association list: replaces the value of an existing key, appends otherwise. -/
def updateAssoc (l : List (ℕ × ℤ)) (k : ℕ) (v : ℤ) : List (ℕ × ℤ) :=
  match l with
  | [] => [(k, v)]
  | (k', v') :: rest => if k' = k then (k, v) :: rest else (k', v') :: updateAssoc rest k v

/-- Shallow model of `std::map` lookup (`find`) on an association list. -/
def lookupAssoc (l : List (ℕ × ℤ)) (k : ℕ) : Option ℤ :=
  match l with
  | [] => none
  | (k', v') :: rest => if k' = k then some v' else lookupAssoc rest k

/-- Fuel-driven model of the scan-and-increment `while` loop of
`setupBaseSymbol`: increment `n` while it occurs in the list of assigned
numbers. -/
def bumpAux (l : List ℤ) : ℕ → ℤ → ℤ
  | 0, n => n
  | fuel + 1, n => if n ∈ l then bumpAux l fuel (n + 1) else n

/-- The scan-and-increment loop: `l.length + 1` rounds of fuel always suffice
because each increment is caused by a distinct value of `l`. -/
def bump (l : List ℤ) (n : ℤ) : ℤ := bumpAux l (l.length + 1) n

/-- Model of the requested number `number` of `setupBaseSymbol`:
`c0 * factor`, plus `c1 % factor` when the second component is set
(`factor` is the positive per-format constant `symbol_number_factor`, so for
`0 ≤ c1` the C++ `%` agrees with the Euclidean `%` used here). -/
def requestedNumber (factor c0 c1 : ℤ) : ℤ :=
  c0 * factor + (if 0 ≤ c1 then c1 % factor else 0)

/-- Model of the number actually assigned by `setupBaseSymbol` given the
values currently stored in `symbol_numbers`: the requested number, `0`
promoted to `1`, bumped past all current values. -/
def assignSymbolNumber (existing : List ℤ) (factor c0 c1 : ℤ) : ℤ :=
  let n0 := requestedNumber factor c0 c1
  bump existing (if n0 = 0 then 1 else n0)

/-- Model of a sequence of `setupBaseSymbol` calls within one export call:
each request is (symbol key, first component, second component); the assigned
number is recorded in the shared `symbol_numbers` map under the symbol's key
(overwriting a previous entry for the same symbol, as `std::map` assignment
does). Returns the sequence of assigned numbers. -/
def runAssignments (factor : ℤ) : List (ℕ × ℤ × ℤ) → List (ℕ × ℤ) → List ℤ
  | [], _ => []
  | (key, c0, c1) :: rest, table =>
    let n := assignSymbolNumber (table.map Prod.snd) factor c0 c1
    n :: runAssignments factor rest (updateAssoc table key n)

/-- Helper: if `n` occurs in `l` then strictly fewer elements of `l` are
`≥ n + 1` than are `≥ n`. -/
theorem countP_ge_decrease (l : List ℤ) (n : ℤ) (h : n ∈ l) :
    l.countP (fun x => decide (n + 1 ≤ x)) < l.countP (fun x => decide (n ≤ x)) := by
  induction l with
  | nil => cases h
  | cons a t ih =>
    rw [List.countP_cons, List.countP_cons]
    have hmono : t.countP (fun x => decide (n + 1 ≤ x)) ≤ t.countP (fun x => decide (n ≤ x)) :=
      List.countP_mono_left (by intro x _ hx; simp only [decide_eq_true_eq] at hx ⊢; omega)
    rcases List.mem_cons.mp h with rfl | hmem
    · have h1 : decide (n + 1 ≤ n) = false := by simp
      have h2 : decide (n ≤ n) = true := by simp
      rw [h1, h2]
      simp only [Bool.false_eq_true, if_false, if_true]
      omega
    · have := ih hmem
      by_cases h1 : n + 1 ≤ a <;> by_cases h2 : n ≤ a <;> simp [h1, h2] <;> omega

/-- Helper: with enough fuel, the scan-and-increment loop terminates at a
value that is not in the list and not below the start value. -/
theorem bumpAux_spec (l : List ℤ) :
    ∀ (fuel : ℕ) (n : ℤ), l.countP (fun x => decide (n ≤ x)) < fuel →
      bumpAux l fuel n ∉ l ∧ n ≤ bumpAux l fuel n := by
  intro fuel
  induction fuel with
  | zero => intro n h; omega
  | succ fuel ih =>
    intro n h
    by_cases hm : n ∈ l
    · have hcount := countP_ge_decrease l n hm
      have := ih (n + 1) (by omega)
      simp only [bumpAux, if_pos hm]
      exact ⟨this.1, by omega⟩
    · simp only [bumpAux, if_neg hm]
      exact ⟨hm, le_refl n⟩

/-- Helper: the assigned value avoids every currently stored value and never
falls below the start value. -/
theorem bump_spec (l : List ℤ) (n : ℤ) : bump l n ∉ l ∧ n ≤ bump l n :=
  bumpAux_spec l (l.length + 1) n
    (by have := List.countP_le_length (fun x => decide (n ≤ x)) (l := l); omega)

/-- Helper: updating one key leaves lookups of other keys unchanged. -/
theorem lookupAssoc_updateAssoc_ne (l : List (ℕ × ℤ)) (k k' : ℕ) (v : ℤ) (h : k' ≠ k) :
    lookupAssoc (updateAssoc l k v) k' = lookupAssoc l k' := by
  induction l with
  | nil =>
    simp only [updateAssoc, lookupAssoc]
    rw [if_neg (fun hh : k = k' => h hh.symm)]
  | cons a t ih =>
    obtain ⟨ak, av⟩ := a
    simp only [updateAssoc]
    by_cases hk : ak = k
    · rw [if_pos hk]
      subst hk
      simp only [lookupAssoc]
      rw [if_neg (fun hh : ak = k' => h hh.symm), if_neg (fun hh : ak = k' => h hh.symm)]
    · rw [if_neg hk]
      simp only [lookupAssoc]
      by_cases hk' : ak = k'
      · rw [if_pos hk', if_pos hk']
      · rw [if_neg hk', if_neg hk', ih]

/-- Helper: inserting a fresh key appends its value to the stored values. -/
theorem updateAssoc_values_fresh (l : List (ℕ × ℤ)) (k : ℕ) (v : ℤ)
    (h : lookupAssoc l k = none) :
    (updateAssoc l k v).map Prod.snd = l.map Prod.snd ++ [v] := by
  induction l with
  | nil => simp [updateAssoc]
  | cons a t ih =>
    obtain ⟨ak, av⟩ := a
    by_cases hk : ak = k
    · simp [lookupAssoc, hk] at h
    · simp only [lookupAssoc, if_neg hk] at h
      simp [updateAssoc, if_neg hk, ih h]

/-- Helper: over requests with pairwise distinct fresh keys, the assigned
numbers are pairwise distinct and avoid all previously stored values. -/
theorem runAssignments_nodup (factor : ℤ) :
    ∀ (reqs : List (ℕ × ℤ × ℤ)) (table : List (ℕ × ℤ)),
      (reqs.map Prod.fst).Nodup →
      (∀ r ∈ reqs, lookupAssoc table r.1 = none) →
      (runAssignments factor reqs table).Nodup ∧
        ∀ x ∈ runAssignments factor reqs table, x ∉ table.map Prod.snd := by
  intro reqs
  induction reqs with
  | nil => intro table _ _; simp [runAssignments]
  | cons r rest ih =>
    intro table hnodup hfresh
    obtain ⟨key, c0, c1⟩ := r
    simp only [List.map_cons, List.nodup_cons] at hnodup
    have hkeyfresh : lookupAssoc table key = none := hfresh _ (List.mem_cons_self _ _)
    set n := assignSymbolNumber (table.map Prod.snd) factor c0 c1 with hn
    have hnot : n ∉ table.map Prod.snd := (bump_spec _ _).1
    have hrest := ih (updateAssoc table key n) hnodup.2 (by
      intro r' hr'
      have hne : r'.1 ≠ key := by
        intro hcontra
        exact hnodup.1 (hcontra ▸ List.mem_map_of_mem Prod.fst hr')
      rw [lookupAssoc_updateAssoc_ne _ _ _ _ hne]
      exact hfresh r' (List.mem_cons_of_mem _ hr'))
    rw [updateAssoc_values_fresh table key n hkeyfresh] at hrest
    simp only [runAssignments, ← hn]
    constructor
    · refine List.nodup_cons.mpr ⟨?_, hrest.1⟩
      intro hmem
      have := hrest.2 n hmem
      simp at this
    · intro x hx
      rcases List.mem_cons.mp hx with rfl | hx'
      · exact hnot
      · have := hrest.2 x hx'
        intro hcontra
        exact this (List.mem_append_left _ hcontra)

/-- Helper: every assigned number is at least 1 for nonnegative first
components and a positive factor, whatever the table state. -/
theorem runAssignments_ge_one (factor : ℤ) (hfactor : 1 ≤ factor) :
    ∀ (reqs : List (ℕ × ℤ × ℤ)) (table : List (ℕ × ℤ)),
      (∀ r ∈ reqs, 0 ≤ r.2.1) →
      ∀ x ∈ runAssignments factor reqs table, 1 ≤ x := by
  intro reqs
  induction reqs with
  | nil => intro table _ x hx; simp [runAssignments] at hx
  | cons r rest ih =>
    intro table hc0 x hx
    obtain ⟨key, c0, c1⟩ := r
    simp only [runAssignments, List.mem_cons] at hx
    rcases hx with rfl | hx'
    · have hreq : 0 ≤ requestedNumber factor c0 c1 := by
        unfold requestedNumber
        have h0 : 0 ≤ c0 := hc0 _ (List.mem_cons_self _ _)
        have h1 : 0 ≤ c0 * factor := mul_nonneg h0 (by omega)
        by_cases hc1 : 0 ≤ c1
        · have := Int.emod_nonneg c1 (by omega : factor ≠ 0)
          simp [hc1]
          omega
        · simp [hc1]
          omega
      unfold assignSymbolNumber
      have hb := (bump_spec ((table.map Prod.snd)) (if requestedNumber factor c0 c1 = 0 then 1 else requestedNumber factor c0 c1)).2
      by_cases h0 : requestedNumber factor c0 c1 = 0 <;> simp [h0] at hb ⊢ <;> omega
    · exact ih _ (fun r' hr' => hc0 r' (List.mem_cons_of_mem _ hr')) x hx'

/-- C3 (counterexample): the claim fails when a symbol is encoded twice within
one export call, which `exportTextSymbol` does for a text symbol used with two
different alignments.  Modelled run: symbol 0 (a text symbol, number 1.0) is
encoded twice, then symbol 1 (requested number 1.0 as well) is encoded.  The
second encoding of symbol 0 overwrites its map entry (releasing number 1000),
so symbol 1 is assigned 1000 again: the assigned numbers [1000, 1001, 1000]
are not pairwise distinct. -/
theorem setupBaseSymbol_collision :
    runAssignments 1000 [(0, 1, 0), (0, 1, 0), (1, 1, 0)] [] = [1000, 1001, 1000] ∧
    ¬ (runAssignments 1000 [(0, 1, 0), (0, 1, 0), (1, 1, 0)] []).Nodup := by
  refine ⟨by decide, by decide⟩

/-- C3 (amended): within one export call every number assigned by
`setupBaseSymbol` is ≥ 1 (number 0.0 is promoted to 1), and the assigned
numbers are pairwise distinct provided no symbol is encoded more than once —
re-encoding a symbol (as the export does for a text symbol used with several
alignments) replaces the symbol's table entry and may release its earlier
number for reuse. -/
theorem setupBaseSymbol_numbers_unique (factor : ℤ) (reqs : List (ℕ × ℤ × ℤ))
    (hfactor : 1 ≤ factor) (hc0 : ∀ r ∈ reqs, 0 ≤ r.2.1) :
    (∀ x ∈ runAssignments factor reqs [], 1 ≤ x) ∧
    ((reqs.map Prod.fst).Nodup → (runAssignments factor reqs []).Nodup) :=
  ⟨runAssignments_ge_one factor hfactor reqs [] hc0,
   fun hkeys => (runAssignments_nodup factor reqs [] hkeys (by simp [lookupAssoc])).1⟩

/-- C3 (witness): the amended theorem applied to a concrete sequence of three
symbols with colliding requested numbers 1.0, 0.0, 1.0. -/
theorem setupBaseSymbol_numbers_unique_witness :
    (∀ x ∈ runAssignments 1000 [(0, 1, 0), (1, 0, 0), (2, 1, 0)] [], 1 ≤ x) ∧
    (([(0, (1 : ℤ), (0 : ℤ)), (1, 0, 0), (2, 1, 0)].map Prod.fst).Nodup →
      (runAssignments 1000 [(0, 1, 0), (1, 0, 0), (2, 1, 0)] []).Nodup) :=
  setupBaseSymbol_numbers_unique 1000 [(0, 1, 0), (1, 0, 0), (2, 1, 0)]
    (by norm_num) (by decide)

/-! ## The export pipeline (C4, C5, C6, C8)

Model of `exportImplementation` (`part_000:656`) and its stages: `exportSetup`
(V8 specialization `part_000:747`, generic `part_000:827`), `exportSymbols`
(`part_000:861`), `exportCombinedSymbol` (`part_000:1537`), `exportTextSymbol`
(`part_000:1401`) and `exportObjects` (`part_000:1871`).  Symbols are
identified by their index in the map's symbol list (standing in for the
`Symbol*` keys of the `symbol_numbers` map); symbol duplicates created during
combined-symbol decomposition have fresh addresses and are keyed anonymously
(`anon` below).  Record contents other than the assigned symbol number and the
record kind are outside the scope of the claims and not modelled. -/

/-- Line cap styles (`LineSymbol::CapStyle`). -/
inductive CapStyle where
  | flat
  | round
  | square
  | pointed
deriving DecidableEq

/-- Whether a cap style is the pointed cap. -/
def isPointedCap : CapStyle → Bool
  | .pointed => true
  | _ => false

/-- The line symbol fields consulted by the combined-symbol decomposition:
color, width, cap style, border/dash state and the four attached point
symbols. -/
structure LineSymbolData where
  color : Option ℤ
  lineWidth : ℤ
  cap : CapStyle
  hasBorder : Bool
  dashed : Bool
  dashSymbol : Option PointSymbolData
  midSymbol : Option PointSymbolData
  startSymbol : Option PointSymbolData
  endSymbol : Option PointSymbolData
deriving DecidableEq

/-- The area symbol fields needed here (fill color only; fill patterns are
outside the scope of the claims). -/
structure AreaSymbolData where
  color : Option ℤ
deriving DecidableEq

/-- The variant of a combined-symbol part.  A nested combined part is never
decomposed further by the source (case 1 simply gives up on it), so its
structure is not needed. -/
inductive PartKind where
  | area : AreaSymbolData → PartKind
  | line : LineSymbolData → PartKind
  | combined : PartKind
  | point : PartKind
  | text : PartKind
deriving DecidableEq

/-- One part reference of a combined symbol: the part's own number
components, its variant, the index of the part in the map's symbol list when
the part is a shared map symbol (`none` for parts owned privately by the
combination), and the `isPartPrivate` flag. -/
structure CombPart where
  c0 : ℤ
  c1 : ℤ
  kind : PartKind
  publicId : Option ℕ
  isPrivate : Bool
deriving DecidableEq

/-- A map symbol variant. -/
inductive SymbolKind where
  | point : PointSymbolData → SymbolKind
  | area : AreaSymbolData → SymbolKind
  | line : LineSymbolData → SymbolKind
  | text : SymbolKind
  | combined : List (Option CombPart) → SymbolKind
deriving DecidableEq

/-- A map symbol: its two number components and its variant data. -/
structure MapSymbol where
  c0 : ℤ
  c1 : ℤ
  kind : SymbolKind
deriving DecidableEq

/-- A drawn object: the index of its symbol, and for text objects the
horizontal alignment and whether it has a single anchor. -/
inductive ObjectData where
  | point : ℕ → ObjectData
  | path : ℕ → ObjectData
  | text : ℕ → ℤ → Bool → ObjectData
deriving DecidableEq

/-- The map model consumed by one export call. -/
structure MapModel where
  numColors : ℕ
  usesRegistrationColor : Bool
  notes : List ℕ
  symbols : List MapSymbol
  parts : List (List ObjectData)
deriving DecidableEq

/-- The non-fatal warnings modelled here (data-dependent encoding warnings of
the symbol field encoders are out of scope). -/
inductive Warning where
  | workInProgress
  | registrationExported
  | spotColorsIgnored
  | unhandledCombined
deriving DecidableEq

/-- The kind tag of an emitted symbol record. -/
inductive RecKind where
  | point
  | area
  | line
  | text
deriving DecidableEq

/-- An emitted symbol record: its assigned number, kind, and — for an area
record produced with a border by combined-symbol decomposition — the border
line symbol's number. -/
structure SymbolRecord where
  number : ℤ
  kind : RecKind
  borderNumber : Option ℤ
deriving DecidableEq

/-- An emitted object record: its type (1 point, 2 line, 3 area, 4/5 text)
and the symbol number it references. -/
structure ObjRecord where
  objType : ℕ
  symbolNumber : ℤ
deriving DecidableEq

/-- The fatal failure modelled here. -/
inductive FatalError where
  | tooManyColors
deriving DecidableEq

/-- The mutable state of an export call: the `symbol_numbers` map restricted
to map symbols (`table`, keyed by symbol index), the numbers held by entries
keyed by temporary duplicates (`anon`), the emitted symbol records, the
warnings, the `text_format_mapping` (symbol index, alignment, number), the
emitted object records, the tags of the emitted parameter strings, and the V8
map notes bytes/size fields. -/
structure ExportState where
  table : List (ℕ × ℤ)
  anon : List ℤ
  records : List SymbolRecord
  warnings : List Warning
  textMapping : List (ℕ × ℤ × ℤ)
  objects : List ObjRecord
  stringsTags : List ℤ
  infoBytes : List ℕ
  infoSize : ℕ
deriving DecidableEq

/-- Modelled from the spec: `PointSymbol::isEmpty` (core/symbols, not in
src) — a point symbol with no elements and no colored inner dot or outer
ring renders nothing. -/
def pointSymbolIsEmpty (p : PointSymbolData) : Bool :=
  p.elements.isEmpty && p.innerColor.isNone && p.outerColor.isNone

/-- The recurring source test `!sym || sym->isEmpty()`. -/
def optSymbolEmpty : Option PointSymbolData → Bool
  | none => true
  | some p => pointSymbolIsEmpty p

/-- The `maybe_framing` predicate of `exportCombinedSymbol`: no border, not
dashed, no pointed cap, and no dash/mid/start/end point symbols. -/
def maybeFraming (l : LineSymbolData) : Bool :=
  !l.hasBorder && !l.dashed && !isPointedCap l.cap &&
  optSymbolEmpty l.dashSymbol && optSymbolEmpty l.midSymbol &&
  optSymbolEmpty l.startSymbol && optSymbolEmpty l.endSymbol

/-- The `maybe_double_filling` predicate of `exportCombinedSymbol`: has a
border, some own width and color, no pointed cap, and no dash/mid/start/end
point symbols. -/
def maybeDoubleFilling (l : LineSymbolData) : Bool :=
  l.hasBorder && (decide (0 < l.lineWidth) && l.color.isSome) && !isPointedCap l.cap &&
  optSymbolEmpty l.dashSymbol && optSymbolEmpty l.midSymbol &&
  optSymbolEmpty l.startSymbol && optSymbolEmpty l.endSymbol

/-- Whether a part is a line symbol. -/
def partIsLine (p : CombPart) : Bool :=
  match p.kind with
  | .line _ => true
  | _ => false

/-- Whether a part is an area symbol. -/
def partIsArea (p : CombPart) : Bool :=
  match p.kind with
  | .area _ => true
  | _ => false

/-- The decomposition a combined symbol will be exported as (`none` when none
of the supported cases applies and the symbol is dropped with a warning). -/
inductive DecomposePlan where
  | singleArea : AreaSymbolData → DecomposePlan
  | singleLine : LineSymbolData → DecomposePlan
  | areaBorder : AreaSymbolData → CombPart → LineSymbolData → DecomposePlan
  | lineCombo : LineSymbolData → LineSymbolData → Option LineSymbolData → DecomposePlan
deriving DecidableEq

/-- The all-line-parts case of `exportCombinedSymbol`: select the
double-line-filling candidate into position 2 (for three parts) and the
framing candidate into position 1 by the source's swap sequence; succeed when
a framing candidate ends up in position 1 and, for three parts, the main line
has no border of its own. -/
def planLines (numParts : ℕ) (l0 l1 : LineSymbolData) (l2 : Option LineSymbolData) :
    Option DecomposePlan :=
  let sel : Option (LineSymbolData × LineSymbolData × Option LineSymbolData) :=
    match l2 with
    | some d =>
      if maybeDoubleFilling d then some (l0, l1, some d)
      else if maybeDoubleFilling l0 then some (d, l1, some l0)
      else if maybeDoubleFilling l1 then some (l0, d, some l1)
      else none
    | none => some (l0, l1, none)
  match sel with
  | none => none
  | some (m0, m1, m2) =>
    let p := if maybeFraming m1 then (m0, m1) else (m1, m0)
    if maybeFraming p.2 then
      if numParts = 3 && p.1.hasBorder then none
      else some (.lineCombo p.1 p.2 m2)
    else none

/-- The two- and three-part cases of `exportCombinedSymbol`: at least one of
the first two parts must be a line; an area part is swapped to position 0 and
yields the area-with-border case (format ≥ 9, exactly two parts only);
otherwise all parts must be lines and the all-lines case applies. -/
def planTwoThree (version : ℕ) (numParts : ℕ) (q0 q1 : CombPart) (q2 : Option CombPart) :
    Option DecomposePlan :=
  if !(partIsLine q0 || partIsLine q1) then none
  else
    let p := if partIsArea q1 then (q1, q0) else (q0, q1)
    match p.1.kind with
    | .area ad =>
      if version < 9 || numParts ≠ 2 then none
      else
        match p.2.kind with
        | .line ld => some (.areaBorder ad p.2 ld)
        | _ => none
    | .line l0 =>
      match p.2.kind with
      | .line l1 =>
        match q2 with
        | none => planLines numParts l0 l1 none
        | some q2p =>
          match q2p.kind with
          | .line l2 => planLines numParts l0 l1 (some l2)
          | _ => none
      | _ => none
    | _ => none

/-- The decision procedure of `exportCombinedSymbol`: gather the non-null
parts (at most 3 are stored; 0 or more than 3 parts are unsupported), then
dispatch on the number of parts.  A single part is re-exported directly when
it is an area or line symbol. -/
def decomposePlan (version : ℕ) (partRefs : List (Option CombPart)) : Option DecomposePlan :=
  match partRefs.filterMap id with
  | [p] =>
    match p.kind with
    | .area ad => some (.singleArea ad)
    | .line ld => some (.singleLine ld)
    | _ => none
  | [p0, p1] => planTwoThree version 2 p0 p1 none
  | [p0, p1, p2] => planTwoThree version 3 p0 p1 (some p2)
  | _ => none

/-- Whether a map symbol is a combined symbol that fails decomposition (and
is therefore dropped from the output with a warning). -/
def symbolUnhandled (version : ℕ) (s : MapSymbol) : Bool :=
  match s.kind with
  | .combined parts => (decomposePlan version parts).isNone
  | _ => false

/-- Model of `setupBaseSymbol`'s number assignment and registration: assign
the next free number scanning all values currently in `symbol_numbers`
(map-symbol entries and duplicate entries), then store it under the symbol's
key — by index for a map symbol, anonymously for a temporary duplicate. -/
def setupBaseSymbolModel (factor : ℤ) (id : Option ℕ) (c0 c1 : ℤ) (st : ExportState) :
    ℤ × ExportState :=
  let n := assignSymbolNumber (st.table.map Prod.snd ++ st.anon) factor c0 c1
  match id with
  | some k => (n, { st with table := updateAssoc st.table k n })
  | none => (n, { st with anon := st.anon ++ [n] })

/-- Model of `exportPointSymbol`: set up the base symbol and emit one point
record (the pattern bytes are modelled separately, see `exportPattern`). -/
def exportPointSymbolModel (factor : ℤ) (id : Option ℕ) (c0 c1 : ℤ) (st : ExportState) :
    ℤ × ExportState :=
  let r := setupBaseSymbolModel factor id c0 c1 st
  (r.1, { r.2 with records := r.2.records ++ [⟨r.1, .point, none⟩] })

/-- Model of `exportAreaSymbol`: set up the base symbol and emit one area
record. -/
def exportAreaSymbolModel (factor : ℤ) (id : Option ℕ) (c0 c1 : ℤ) (st : ExportState) :
    ℤ × ExportState :=
  let r := setupBaseSymbolModel factor id c0 c1 st
  (r.1, { r.2 with records := r.2.records ++ [⟨r.1, .area, none⟩] })

/-- Model of `exportLineSymbol`: set up the base symbol and emit one line
record. -/
def exportLineSymbolModel (factor : ℤ) (id : Option ℕ) (c0 c1 : ℤ) (st : ExportState) :
    ℤ × ExportState :=
  let r := setupBaseSymbolModel factor id c0 c1 st
  (r.1, { r.2 with records := r.2.records ++ [⟨r.1, .line, none⟩] })

/-- Model of `exportCombinedAreaSymbol`: an area record whose border flag and
border symbol number are patched in. -/
def exportCombinedAreaSymbolModel (factor : ℤ) (id : Option ℕ) (c0 c1 : ℤ) (borderNumber : ℤ)
    (st : ExportState) : ℤ × ExportState :=
  let r := setupBaseSymbolModel factor id c0 c1 st
  (r.1, { r.2 with records := r.2.records ++ [⟨r.1, .area, some borderNumber⟩] })

/-- Model of the inner `exportTextSymbol(text_symbol, alignment)`: set up the
base symbol (overwriting the symbol's `symbol_numbers` entry on a repeated
call) and emit one text record. -/
def exportTextSymbolRecord (factor : ℤ) (id : Option ℕ) (c0 c1 : ℤ) (st : ExportState) :
    ℤ × ExportState :=
  let r := setupBaseSymbolModel factor id c0 c1 st
  (r.1, { r.2 with records := r.2.records ++ [⟨r.1, .text, none⟩] })

/-- Model of `exportCombinedSymbol`: execute the decomposition plan.  On
failure, append the "Unhandled combined symbol" warning and emit nothing; on
success, emit the planned record(s) and store the number of the emitted main
record under the combined symbol's key. -/
def exportCombinedSymbolModel (version : ℕ) (factor : ℤ) (i : ℕ) (c0 c1 : ℤ)
    (parts : List (Option CombPart)) (st : ExportState) : ExportState :=
  match decomposePlan version parts with
  | none => { st with warnings := st.warnings ++ [.unhandledCombined] }
  | some (.singleArea _) =>
    let r := exportAreaSymbolModel factor none c0 c1 st
    { r.2 with table := updateAssoc r.2.table i r.1 }
  | some (.singleLine _) =>
    let r := exportLineSymbolModel factor none c0 c1 st
    { r.2 with table := updateAssoc r.2.table i r.1 }
  | some (.areaBorder _ borderPart _) =>
    let rb :=
      match borderPart.publicId.bind (lookupAssoc st.table) with
      | some bn => (bn, st)
      | none =>
        if borderPart.isPrivate then
          exportLineSymbolModel factor none borderPart.c0 (borderPart.c1 + 1) st
        else
          exportLineSymbolModel factor borderPart.publicId borderPart.c0 borderPart.c1 st
    let r := exportCombinedAreaSymbolModel factor none c0 c1 rb.1 rb.2
    { r.2 with table := updateAssoc r.2.table i r.1 }
  | some (.lineCombo _ _ _) =>
    let r := exportLineSymbolModel factor none c0 c1 st
    { r.2 with table := updateAssoc r.2.table i r.1 }

/-- Model of the alignment scan of `exportTextSymbol`: for each object in map
order that references the text symbol and whose alignment has not been seen
during this scan, export one alignment variant record and append its mapping
entry. -/
def exportTextAlignments (factor : ℤ) (i : ℕ) (c0 c1 : ℤ) :
    List ObjectData → ExportState → List ℤ → ExportState × List ℤ
  | [], st, added => (st, added)
  | o :: rest, st, added =>
    match o with
    | .text j alignment _ =>
      if j = i ∧ alignment ∉ added then
        let r := exportTextSymbolRecord factor (some i) c0 c1 st
        let st' := { r.2 with textMapping := r.2.textMapping ++ [(i, alignment, r.1)] }
        exportTextAlignments factor i c0 c1 rest st' (added ++ [alignment])
      else exportTextAlignments factor i c0 c1 rest st added
    | _ => exportTextAlignments factor i c0 c1 rest st added

/-- Model of the outer `exportTextSymbol`: export one record per alignment
actually used by an object referencing the symbol; if there is none, export
one record with the default alignment (and no mapping entry). -/
def exportTextSymbolModel (factor : ℤ) (m : MapModel) (i : ℕ) (c0 c1 : ℤ)
    (st : ExportState) : ExportState :=
  let r := exportTextAlignments factor i c0 c1 m.parts.flatten st []
  if r.2.isEmpty then (exportTextSymbolRecord factor (some i) c0 c1 r.1).2
  else r.1

/-- Dispatch of `exportSymbols` on the symbol variant. -/
def exportOneSymbol (version : ℕ) (factor : ℤ) (m : MapModel) (i : ℕ) (s : MapSymbol)
    (st : ExportState) : ExportState :=
  match s.kind with
  | .point _ => (exportPointSymbolModel factor (some i) s.c0 s.c1 st).2
  | .area _ => (exportAreaSymbolModel factor (some i) s.c0 s.c1 st).2
  | .line _ => (exportLineSymbolModel factor (some i) s.c0 s.c1 st).2
  | .text => exportTextSymbolModel factor m i s.c0 s.c1 st
  | .combined parts => exportCombinedSymbolModel version factor i s.c0 s.c1 parts st

/-- Model of the `exportSymbols` loop from symbol index `i` on: a symbol that
already has a `symbol_numbers` entry was exported by an earlier combined
symbol and is skipped. -/
def exportSymbolsAux (version : ℕ) (factor : ℤ) (m : MapModel) :
    ℕ → List MapSymbol → ExportState → ExportState
  | _, [], st => st
  | i, s :: rest, st =>
    let st' := if (lookupAssoc st.table i).isSome then st
               else exportOneSymbol version factor m i s st
    exportSymbolsAux version factor m (i + 1) rest st'

/-- Model of `exportSymbols`. -/
def exportSymbolsModel (version : ℕ) (factor : ℤ) (m : MapModel) (st : ExportState) :
    ExportState :=
  exportSymbolsAux version factor m 0 m.symbols st

/-- Modelled from the spec: `Symbol::getContainedTypes` (core/symbols, not in
src) computed one level deep — an area symbol contains the area type, and a
combined symbol contains the types of its direct parts. -/
def symbolHasAreaType (m : MapModel) (j : ℕ) : Bool :=
  match m.symbols.get? j with
  | some s =>
    match s.kind with
    | .area _ => true
    | .combined parts =>
      parts.any fun p =>
        match p with
        | some q => partIsArea q
        | none => false
    | _ => false
  | none => false

/-- Model of the object encoders: a point object is type 1, a path object is
type 3 when its symbol contains the area type and type 2 otherwise, a text
object is type 4 (single anchor) or 5 (box).  Point and path objects read the
symbol number from `symbol_numbers` (`std::map::operator[]`, yielding the
default value 0 for a missing key); text objects read it from
`text_format_mapping`. -/
def encodeObject (m : MapModel) (table : List (ℕ × ℤ)) (textMapping : List (ℕ × ℤ × ℤ)) :
    ObjectData → ObjRecord
  | .point j => ⟨1, (lookupAssoc table j).getD 0⟩
  | .path j => ⟨if symbolHasAreaType m j then 3 else 2, (lookupAssoc table j).getD 0⟩
  | .text j alignment single =>
    let num :=
      match textMapping.find? fun t => decide (t.1 = j) && decide (t.2.1 = alignment) with
      | some t => t.2.2
      | none => 0
    ⟨if single then 4 else 5, num⟩

/-- Model of `exportObjects`: encode every object of every part, in order,
after all symbols have been encoded. -/
def exportObjectsModel (m : MapModel) (st : ExportState) : ExportState :=
  { st with
    objects := st.objects ++ m.parts.flatten.map (encodeObject m st.table st.textMapping) }

/-- Model of `exportSetup<Ocd::FormatV8>`: store (possibly truncated) map
notes, then abort with a fatal exception when the color count exceeds the
format limit (255 with a synthesized registration color entry, 256
otherwise), else emit the color table with its warnings. -/
def exportSetupV8Model (m : MapModel) (st : ExportState) : ExportState × Option FatalError :=
  let st :=
    if m.notes.isEmpty then st
    else
      if 32768 < m.notes.length + 1 then
        { st with infoBytes := m.notes.take 23767 ++ [0], infoSize := 32768 }
      else
        { st with infoBytes := m.notes ++ [0], infoSize := m.notes.length + 1 }
  if (if m.usesRegistrationColor then 255 else 256) < m.numColors then
    (st, some .tooManyColors)
  else
    let st :=
      if m.usesRegistrationColor then
        { st with warnings := st.warnings ++ [.registrationExported] }
      else st
    ({ st with warnings := st.warnings ++ [.spotColorsIgnored] }, none)

/-- Model of the generic `exportSetup` (formats ≥ 9): emit the
georeferencing string (tag 1039), the map notes string (tag 1061 from version
11 on, tag 11 before), and one color string (tag 9) per color, the
registration color first when synthesized. -/
def exportSetupV9Model (version : ℕ) (m : MapModel) (st : ExportState) : ExportState :=
  let st := { st with
    stringsTags := st.stringsTags ++ [1039] ++ [if 11 ≤ version then 1061 else 11] }
  let st :=
    if m.usesRegistrationColor then
      { st with warnings := st.warnings ++ [.registrationExported],
                stringsTags := st.stringsTags ++ [9] }
    else st
  { st with stringsTags := st.stringsTags ++ List.replicate m.numColors 9,
            warnings := st.warnings ++ [.spotColorsIgnored] }

/-- Version dispatch of `exportSetup`. -/
def exportSetupModel (version : ℕ) (m : MapModel) (st : ExportState) :
    ExportState × Option FatalError :=
  if version = 8 then exportSetupV8Model m st
  else (exportSetupV9Model version m st, none)

/-- The outcome of one export call: the fully assembled file state when the
export completed (nothing reaches the output stream otherwise), the warnings,
and the fatal error if any. -/
structure ExportOutcome where
  written : Option ExportState
  warnings : List Warning
  fatal : Option FatalError
deriving DecidableEq

/-- The fresh state at the start of one export call (the source first adds
its work-in-progress warning). -/
def initialState : ExportState :=
  ⟨[], [], [], [Warning.workInProgress], [], [], [], [], 0⟩

/-- Model of `exportImplementation`: setup (colors, possibly fatal), then
symbols, then objects; the byte buffer is written to the stream only after
all stages completed. -/
def exportImplementationModel (version : ℕ) (factor : ℤ) (m : MapModel) : ExportOutcome :=
  match exportSetupModel version m initialState with
  | (st, some e) => { written := none, warnings := st.warnings, fatal := some e }
  | (st1, none) =>
    let st2 := exportSymbolsModel version factor m st1
    let st3 := exportObjectsModel m st2
    { written := some st3, warnings := st3.warnings, fatal := none }

/-- Helper: updating a key makes its lookup return the new value. -/
theorem lookupAssoc_updateAssoc_self (l : List (ℕ × ℤ)) (k : ℕ) (v : ℤ) :
    lookupAssoc (updateAssoc l k v) k = some v := by
  induction l with
  | nil => simp [updateAssoc, lookupAssoc]
  | cons a t ih =>
    obtain ⟨ak, av⟩ := a
    simp only [updateAssoc]
    by_cases hk : ak = k
    · rw [if_pos hk]
      simp [lookupAssoc]
    · rw [if_neg hk]
      simp only [lookupAssoc, if_neg hk]
      exact ih

/-- C4: exporting to version 8 a map whose color count exceeds the hard
limit (256 colors, or 255 when a registration-color entry is synthesized)
aborts the export with a fatal error and nothing is written to the output
stream. -/
theorem exportV8_color_limit_fatal (factor : ℤ) (m : MapModel)
    (h : (if m.usesRegistrationColor then 255 else 256) < m.numColors) :
    (exportImplementationModel 8 factor m).fatal = some FatalError.tooManyColors ∧
    (exportImplementationModel 8 factor m).written = none := by
  unfold exportImplementationModel exportSetupModel exportSetupV8Model
  simp only [if_pos rfl, if_pos h]
  constructor <;> rfl

/-- C4 (witness): a map with 257 colors and no registration color aborts the
version 8 export before anything reaches the stream. -/
theorem exportV8_color_limit_fatal_witness :
    (exportImplementationModel 8 1000 ⟨257, false, [], [], []⟩).fatal
        = some FatalError.tooManyColors ∧
    (exportImplementationModel 8 1000 ⟨257, false, [], [], []⟩).written = none :=
  exportV8_color_limit_fatal 1000 ⟨257, false, [], [], []⟩ (by norm_num)

/-- C6: a combined symbol whose parts match none of the supported
decomposition cases (`decomposePlan` finds no plan) makes the export append
exactly the "Unhandled combined symbol" warning, emit no symbol record and
assign no number, and the symbols loop simply continues with the remaining
symbols instead of failing. -/
theorem unhandled_combined_warning (version : ℕ) (factor : ℤ) (m : MapModel)
    (i : ℕ) (c0 c1 : ℤ) (parts : List (Option CombPart)) (rest : List MapSymbol)
    (st : ExportState)
    (hplan : decomposePlan version parts = none)
    (hfresh : lookupAssoc st.table i = none) :
    exportCombinedSymbolModel version factor i c0 c1 parts st
      = { st with warnings := st.warnings ++ [.unhandledCombined] } ∧
    (exportCombinedSymbolModel version factor i c0 c1 parts st).records = st.records ∧
    exportSymbolsAux version factor m i (⟨c0, c1, .combined parts⟩ :: rest) st
      = exportSymbolsAux version factor m (i + 1) rest
          { st with warnings := st.warnings ++ [.unhandledCombined] } := by
  have h1 : exportCombinedSymbolModel version factor i c0 c1 parts st
      = { st with warnings := st.warnings ++ [.unhandledCombined] } := by
    unfold exportCombinedSymbolModel
    rw [hplan]
  refine ⟨h1, by rw [h1], ?_⟩
  simp only [exportSymbolsAux, hfresh, Option.isSome_none, Bool.false_eq_true, if_false,
    exportOneSymbol, h1]

/-- C6 (witness): a combined symbol with no non-null parts on a fresh state:
the warning is appended, no record is emitted, and the loop continues. -/
theorem unhandled_combined_warning_witness :
    exportCombinedSymbolModel 9 1000 0 1 0 [] initialState
      = { initialState with warnings := initialState.warnings ++ [.unhandledCombined] } ∧
    (exportCombinedSymbolModel 9 1000 0 1 0 [] initialState).records
      = initialState.records ∧
    exportSymbolsAux 9 1000 ⟨0, false, [], [], []⟩ 0 [⟨1, 0, .combined []⟩] initialState
      = exportSymbolsAux 9 1000 ⟨0, false, [], [], []⟩ 1 []
          { initialState with warnings := initialState.warnings ++ [.unhandledCombined] } :=
  unhandled_combined_warning 9 1000 ⟨0, false, [], [], []⟩ 0 1 0 [] [] initialState
    (by decide) (by decide)

/-- State extension: the second state has the same V8 notes fields, extends
the warnings of the first, and keeps every symbol-number table key of the
first present.  Every pipeline stage extends its input state. -/
def StateExtends (st st' : ExportState) : Prop :=
  (∃ w, st'.warnings = st.warnings ++ w) ∧
  st'.infoBytes = st.infoBytes ∧
  st'.infoSize = st.infoSize ∧
  (∀ k, (lookupAssoc st.table k).isSome → (lookupAssoc st'.table k).isSome)

/-- Helper: state extension is reflexive. -/
theorem stateExtends_refl (st : ExportState) : StateExtends st st :=
  ⟨⟨[], (List.append_nil _).symm⟩, rfl, rfl, fun _ h => h⟩

/-- Helper: state extension is transitive. -/
theorem stateExtends_trans {a b c : ExportState}
    (h1 : StateExtends a b) (h2 : StateExtends b c) : StateExtends a c := by
  obtain ⟨⟨w1, hw1⟩, hi1, hs1, ht1⟩ := h1
  obtain ⟨⟨w2, hw2⟩, hi2, hs2, ht2⟩ := h2
  exact ⟨⟨w1 ++ w2, by rw [hw2, hw1, List.append_assoc]⟩, hi2.trans hi1, hs2.trans hs1,
    fun k h => ht2 k (ht1 k h)⟩

/-- Helper: updating any key keeps all present keys present. -/
theorem lookupAssoc_updateAssoc_isSome (l : List (ℕ × ℤ)) (k k' : ℕ) (v : ℤ)
    (h : (lookupAssoc l k).isSome) :
    (lookupAssoc (updateAssoc l k' v) k).isSome := by
  by_cases hk : k = k'
  · subst hk
    rw [lookupAssoc_updateAssoc_self]
    rfl
  · rw [lookupAssoc_updateAssoc_ne l k' k v hk]
    exact h

/-- Helper: writing the symbol-number table entry of one key extends the
state. -/
theorem stateExtends_updateTable (st : ExportState) (k : ℕ) (v : ℤ) :
    StateExtends st { st with table := updateAssoc st.table k v } :=
  ⟨⟨[], (List.append_nil _).symm⟩, rfl, rfl, fun _ h => lookupAssoc_updateAssoc_isSome _ _ _ _ h⟩

/-- Helper: `setupBaseSymbol` extends the state. -/
theorem setupBaseSymbolModel_extends (factor : ℤ) (id : Option ℕ) (c0 c1 : ℤ)
    (st : ExportState) :
    StateExtends st (setupBaseSymbolModel factor id c0 c1 st).2 := by
  cases id with
  | none => exact ⟨⟨[], (List.append_nil _).symm⟩, rfl, rfl, fun _ h => h⟩
  | some k => exact stateExtends_updateTable st k _

/-- Helper: `exportPointSymbol` extends the state. -/
theorem exportPointSymbolModel_extends (factor : ℤ) (id : Option ℕ) (c0 c1 : ℤ)
    (st : ExportState) :
    StateExtends st (exportPointSymbolModel factor id c0 c1 st).2 :=
  stateExtends_trans (setupBaseSymbolModel_extends factor id c0 c1 st)
    ⟨⟨[], (List.append_nil _).symm⟩, rfl, rfl, fun _ h => h⟩

/-- Helper: `exportAreaSymbol` extends the state. -/
theorem exportAreaSymbolModel_extends (factor : ℤ) (id : Option ℕ) (c0 c1 : ℤ)
    (st : ExportState) :
    StateExtends st (exportAreaSymbolModel factor id c0 c1 st).2 :=
  stateExtends_trans (setupBaseSymbolModel_extends factor id c0 c1 st)
    ⟨⟨[], (List.append_nil _).symm⟩, rfl, rfl, fun _ h => h⟩

/-- Helper: `exportLineSymbol` extends the state. -/
theorem exportLineSymbolModel_extends (factor : ℤ) (id : Option ℕ) (c0 c1 : ℤ)
    (st : ExportState) :
    StateExtends st (exportLineSymbolModel factor id c0 c1 st).2 :=
  stateExtends_trans (setupBaseSymbolModel_extends factor id c0 c1 st)
    ⟨⟨[], (List.append_nil _).symm⟩, rfl, rfl, fun _ h => h⟩

/-- Helper: `exportCombinedAreaSymbol` extends the state. -/
theorem exportCombinedAreaSymbolModel_extends (factor : ℤ) (id : Option ℕ) (c0 c1 bn : ℤ)
    (st : ExportState) :
    StateExtends st (exportCombinedAreaSymbolModel factor id c0 c1 bn st).2 :=
  stateExtends_trans (setupBaseSymbolModel_extends factor id c0 c1 st)
    ⟨⟨[], (List.append_nil _).symm⟩, rfl, rfl, fun _ h => h⟩

/-- Helper: the inner text symbol record export extends the state. -/
theorem exportTextSymbolRecord_extends (factor : ℤ) (id : Option ℕ) (c0 c1 : ℤ)
    (st : ExportState) :
    StateExtends st (exportTextSymbolRecord factor id c0 c1 st).2 :=
  stateExtends_trans (setupBaseSymbolModel_extends factor id c0 c1 st)
    ⟨⟨[], (List.append_nil _).symm⟩, rfl, rfl, fun _ h => h⟩

/-- Helper: `exportCombinedSymbol` extends the state. -/
theorem exportCombinedSymbolModel_extends (version : ℕ) (factor : ℤ) (i : ℕ) (c0 c1 : ℤ)
    (parts : List (Option CombPart)) (st : ExportState) :
    StateExtends st (exportCombinedSymbolModel version factor i c0 c1 parts st) := by
  unfold exportCombinedSymbolModel
  cases hplan : decomposePlan version parts with
  | none => exact ⟨⟨[.unhandledCombined], rfl⟩, rfl, rfl, fun _ h => h⟩
  | some plan =>
    cases plan with
    | singleArea ad =>
      exact stateExtends_trans (exportAreaSymbolModel_extends factor none c0 c1 st)
        (stateExtends_updateTable _ i _)
    | singleLine ld =>
      exact stateExtends_trans (exportLineSymbolModel_extends factor none c0 c1 st)
        (stateExtends_updateTable _ i _)
    | lineCombo main framing dbl =>
      exact stateExtends_trans (exportLineSymbolModel_extends factor none c0 c1 st)
        (stateExtends_updateTable _ i _)
    | areaBorder ad bp bld =>
      cases hlb : bp.publicId.bind (lookupAssoc st.table) with
      | some bn =>
        simp only [hlb]
        exact stateExtends_trans (exportCombinedAreaSymbolModel_extends factor none c0 c1 bn st)
          (stateExtends_updateTable _ i _)
      | none =>
        simp only [hlb]
        by_cases hp : bp.isPrivate
        · rw [if_pos hp]
          exact stateExtends_trans
            (stateExtends_trans (exportLineSymbolModel_extends factor none bp.c0 (bp.c1 + 1) st)
              (exportCombinedAreaSymbolModel_extends factor none c0 c1 _ _))
            (stateExtends_updateTable _ i _)
        · rw [if_neg hp]
          exact stateExtends_trans
            (stateExtends_trans
              (exportLineSymbolModel_extends factor bp.publicId bp.c0 bp.c1 st)
              (exportCombinedAreaSymbolModel_extends factor none c0 c1 _ _))
            (stateExtends_updateTable _ i _)

/-- Helper: the alignment scan of `exportTextSymbol` extends the state. -/
theorem exportTextAlignments_extends (factor : ℤ) (i : ℕ) (c0 c1 : ℤ) :
    ∀ (objs : List ObjectData) (st : ExportState) (added : List ℤ),
      StateExtends st (exportTextAlignments factor i c0 c1 objs st added).1 := by
  intro objs
  induction objs with
  | nil => intro st added; exact stateExtends_refl st
  | cons o rest ih =>
    intro st added
    cases o with
    | point j => exact ih st added
    | path j => exact ih st added
    | text j a sgl =>
      simp only [exportTextAlignments]
      by_cases hc : j = i ∧ a ∉ added
      · rw [if_pos hc]
        exact stateExtends_trans
          (stateExtends_trans (exportTextSymbolRecord_extends factor (some i) c0 c1 st)
            ⟨⟨[], (List.append_nil _).symm⟩, rfl, rfl, fun _ h => h⟩)
          (ih _ _)
      · rw [if_neg hc]
        exact ih st added

/-- Helper: `exportTextSymbol` extends the state. -/
theorem exportTextSymbolModel_extends (factor : ℤ) (m : MapModel) (i : ℕ) (c0 c1 : ℤ)
    (st : ExportState) :
    StateExtends st (exportTextSymbolModel factor m i c0 c1 st) := by
  unfold exportTextSymbolModel
  by_cases hemp : (exportTextAlignments factor i c0 c1 m.parts.flatten st []).2.isEmpty = true
  · rw [if_pos hemp]
    exact stateExtends_trans (exportTextAlignments_extends factor i c0 c1 m.parts.flatten st [])
      (exportTextSymbolRecord_extends factor (some i) c0 c1 _)
  · rw [if_neg hemp]
    exact exportTextAlignments_extends factor i c0 c1 m.parts.flatten st []

/-- Helper: every single-symbol export step extends the state. -/
theorem exportOneSymbol_extends (version : ℕ) (factor : ℤ) (m : MapModel) (i : ℕ)
    (s : MapSymbol) (st : ExportState) :
    StateExtends st (exportOneSymbol version factor m i s st) := by
  obtain ⟨c0, c1, kind⟩ := s
  cases kind with
  | point pd => exact exportPointSymbolModel_extends factor (some i) c0 c1 st
  | area ad => exact exportAreaSymbolModel_extends factor (some i) c0 c1 st
  | line ld => exact exportLineSymbolModel_extends factor (some i) c0 c1 st
  | text => exact exportTextSymbolModel_extends factor m i c0 c1 st
  | combined parts => exact exportCombinedSymbolModel_extends version factor i c0 c1 parts st

/-- Helper: the symbols loop extends the state. -/
theorem exportSymbolsAux_extends (version : ℕ) (factor : ℤ) (m : MapModel) :
    ∀ (l : List MapSymbol) (i : ℕ) (st : ExportState),
      StateExtends st (exportSymbolsAux version factor m i l st) := by
  intro l
  induction l with
  | nil => intro i st; exact stateExtends_refl st
  | cons s rest ih =>
    intro i st
    simp only [exportSymbolsAux]
    by_cases hb : (lookupAssoc st.table i).isSome = true
    · rw [if_pos hb]
      exact ih (i + 1) st
    · rw [if_neg hb]
      exact stateExtends_trans (exportOneSymbol_extends version factor m i s st)
        (ih (i + 1) _)

/-- Helper: the objects stage extends the state. -/
theorem exportObjectsModel_extends (m : MapModel) (st : ExportState) :
    StateExtends st (exportObjectsModel m st) :=
  ⟨⟨[], (List.append_nil _).symm⟩, rfl, rfl, fun _ h => h⟩

/-- Helper: the alignment scan either changes nothing (no matching object) or
leaves the text symbol's index present in the symbol-number table. -/
theorem exportTextAlignments_table (factor : ℤ) (i : ℕ) (c0 c1 : ℤ) :
    ∀ (objs : List ObjectData) (st : ExportState) (added : List ℤ),
      exportTextAlignments factor i c0 c1 objs st added = (st, added) ∨
      (lookupAssoc (exportTextAlignments factor i c0 c1 objs st added).1.table i).isSome := by
  intro objs
  induction objs with
  | nil => intro st added; exact Or.inl rfl
  | cons o rest ih =>
    intro st added
    cases o with
    | point j => exact ih st added
    | path j => exact ih st added
    | text j a sgl =>
      simp only [exportTextAlignments]
      by_cases hc : j = i ∧ a ∉ added
      · rw [if_pos hc]
        refine Or.inr ?_
        have hself : (lookupAssoc
            ({ (exportTextSymbolRecord factor (some i) c0 c1 st).2 with
               textMapping := (exportTextSymbolRecord factor (some i) c0 c1 st).2.textMapping
                 ++ [(i, a, (exportTextSymbolRecord factor (some i) c0 c1 st).1)] }).table
            i).isSome := by
          simp only [exportTextSymbolRecord, setupBaseSymbolModel]
          rw [lookupAssoc_updateAssoc_self]
          rfl
        exact (exportTextAlignments_extends factor i c0 c1 rest _ _).2.2.2 i hself
      · rw [if_neg hc]
        exact ih st added

/-- Helper: after `exportTextSymbol` the text symbol's index is present in the
symbol-number table (through the last alignment variant, or through the
fallback record for an unused symbol). -/
theorem exportTextSymbolModel_table_some (factor : ℤ) (m : MapModel) (i : ℕ) (c0 c1 : ℤ)
    (st : ExportState) :
    (lookupAssoc (exportTextSymbolModel factor m i c0 c1 st).table i).isSome := by
  unfold exportTextSymbolModel
  by_cases hemp : (exportTextAlignments factor i c0 c1 m.parts.flatten st []).2.isEmpty = true
  · rw [if_pos hemp]
    simp only [exportTextSymbolRecord, setupBaseSymbolModel]
    rw [lookupAssoc_updateAssoc_self]
    rfl
  · rw [if_neg hemp]
    rcases exportTextAlignments_table factor i c0 c1 m.parts.flatten st [] with heq | hsome
    · rw [heq] at hemp
      exact absurd rfl hemp
    · exact hsome

/-- Helper: encoding one symbol that is not an unhandled combined symbol
leaves its index present in the symbol-number table. -/
theorem exportOneSymbol_table_some (version : ℕ) (factor : ℤ) (m : MapModel) (i : ℕ)
    (s : MapSymbol) (st : ExportState) (hok : symbolUnhandled version s = false) :
    (lookupAssoc (exportOneSymbol version factor m i s st).table i).isSome := by
  obtain ⟨c0, c1, kind⟩ := s
  cases kind with
  | point pd =>
    simp only [exportOneSymbol, exportPointSymbolModel, setupBaseSymbolModel]
    rw [lookupAssoc_updateAssoc_self]
    rfl
  | area ad =>
    simp only [exportOneSymbol, exportAreaSymbolModel, setupBaseSymbolModel]
    rw [lookupAssoc_updateAssoc_self]
    rfl
  | line ld =>
    simp only [exportOneSymbol, exportLineSymbolModel, setupBaseSymbolModel]
    rw [lookupAssoc_updateAssoc_self]
    rfl
  | text => exact exportTextSymbolModel_table_some factor m i c0 c1 st
  | combined parts =>
    simp only [exportOneSymbol, exportCombinedSymbolModel]
    cases hplan : decomposePlan version parts with
    | none => simp [symbolUnhandled, hplan] at hok
    | some plan =>
      cases plan with
      | singleArea ad =>
        rw [lookupAssoc_updateAssoc_self]
        rfl
      | singleLine ld =>
        rw [lookupAssoc_updateAssoc_self]
        rfl
      | lineCombo main framing dbl =>
        rw [lookupAssoc_updateAssoc_self]
        rfl
      | areaBorder ad bp bld =>
        cases hlb : bp.publicId.bind (lookupAssoc st.table) with
        | some bn =>
          simp only [hlb]
          rw [lookupAssoc_updateAssoc_self]
          rfl
        | none =>
          simp only [hlb]
          by_cases hp : bp.isPrivate
          · rw [if_pos hp, lookupAssoc_updateAssoc_self]
            rfl
          · rw [if_neg hp, lookupAssoc_updateAssoc_self]
            rfl

/-- Helper: after the symbols loop, every processed symbol that is not an
unhandled combined symbol has an entry in the symbol-number table. -/
theorem exportSymbolsAux_coverage (version : ℕ) (factor : ℤ) (m : MapModel) :
    ∀ (l : List MapSymbol) (i0 : ℕ) (st : ExportState) (j : ℕ) (s : MapSymbol),
      l.get? j = some s → symbolUnhandled version s = false →
      (lookupAssoc (exportSymbolsAux version factor m i0 l st).table (i0 + j)).isSome := by
  intro l
  induction l with
  | nil => intro i0 st j s hj _; simp at hj
  | cons s0 rest ih =>
    intro i0 st j s hj hok
    cases j with
    | zero =>
      simp only [List.get?_cons_zero, Option.some.injEq] at hj
      subst hj
      simp only [exportSymbolsAux, Nat.add_zero]
      by_cases hb : (lookupAssoc st.table i0).isSome = true
      · rw [if_pos hb]
        exact (exportSymbolsAux_extends version factor m rest (i0 + 1) st).2.2.2 i0 hb
      · rw [if_neg hb]
        exact (exportSymbolsAux_extends version factor m rest (i0 + 1) _).2.2.2 i0
          (exportOneSymbol_table_some version factor m i0 s0 st hok)
    | succ j' =>
      simp only [List.get?_cons_succ] at hj
      have := ih (i0 + 1) (if (lookupAssoc st.table i0).isSome then st
        else exportOneSymbol version factor m i0 s0 st) j' s hj hok
      simp only [exportSymbolsAux]
      have harith : i0 + 1 + j' = i0 + (j' + 1) := by omega
      rw [← harith]
      exact this

/-- A one-symbol map whose combined symbol has no usable parts, referenced by
a path object: decomposition fails and the symbol gets no number. -/
def droppedCombinedMap : MapModel :=
  ⟨0, false, [], [⟨1, 0, .combined []⟩], [[.path 0]]⟩

/-- C5 (counterexample): the claim includes objects whose symbol is a
combined symbol that failed decomposition — but such a symbol never receives
a symbol-number table entry: in `droppedCombinedMap` the table has no entry
for symbol 0 after all symbols are encoded, and the path object referencing
it is encoded with the default number 0 (which is not an assigned number;
number 0 is not even valid in the format). -/
theorem combined_failure_object_unnumbered :
    lookupAssoc (exportSymbolsModel 9 1000 droppedCombinedMap
        (exportSetupModel 9 droppedCombinedMap initialState).1).table 0 = none ∧
    ((exportImplementationModel 9 1000 droppedCombinedMap).written.map
        fun f => f.objects) = some [⟨2, 0⟩] :=
  ⟨by decide, by decide⟩

/-- C5 (amended): after `exportSymbols` — and the objects stage runs strictly
after it and never modifies the symbol-number table — every map symbol that is
not a combined symbol dropped by failed decomposition has an assigned number
in the table, and point/path objects referencing it are encoded with exactly
that number.  Objects whose symbol is a dropped combined symbol are instead
encoded with the default number 0. -/
theorem objects_find_symbol_numbers (version : ℕ) (factor : ℤ) (m : MapModel)
    (st0 : ExportState) (i : ℕ) (s : MapSymbol)
    (hs : m.symbols.get? i = some s)
    (hok : symbolUnhandled version s = false) :
    ∃ n, lookupAssoc (exportSymbolsModel version factor m st0).table i = some n ∧
      encodeObject m (exportSymbolsModel version factor m st0).table
        (exportSymbolsModel version factor m st0).textMapping (.point i) = ⟨1, n⟩ ∧
      (encodeObject m (exportSymbolsModel version factor m st0).table
        (exportSymbolsModel version factor m st0).textMapping (.path i)).symbolNumber = n ∧
      (exportObjectsModel m (exportSymbolsModel version factor m st0)).table
        = (exportSymbolsModel version factor m st0).table := by
  have hcov := exportSymbolsAux_coverage version factor m m.symbols 0 st0 i s hs hok
  rw [Nat.zero_add] at hcov
  obtain ⟨n, hn⟩ := Option.isSome_iff_exists.mp hcov
  have hn' : lookupAssoc (exportSymbolsModel version factor m st0).table i = some n := hn
  refine ⟨n, hn', ?_, ?_, rfl⟩
  · simp [encodeObject, hn']
  · simp [encodeObject, hn']

/-- A one-symbol map with a plain line symbol referenced by a path object. -/
def sampleLineMap : MapModel :=
  ⟨0, false, [],
   [⟨1, 0, .line ⟨some 3, 20, .flat, false, false, none, none, none, none⟩⟩],
   [[.path 0]]⟩

/-- C5 (witness): the amended theorem applied to `sampleLineMap` at symbol
index 0. -/
theorem objects_find_symbol_numbers_witness :
    ∃ n, lookupAssoc (exportSymbolsModel 9 1000 sampleLineMap initialState).table 0 = some n ∧
      encodeObject sampleLineMap (exportSymbolsModel 9 1000 sampleLineMap initialState).table
        (exportSymbolsModel 9 1000 sampleLineMap initialState).textMapping (.point 0) = ⟨1, n⟩ ∧
      (encodeObject sampleLineMap (exportSymbolsModel 9 1000 sampleLineMap initialState).table
        (exportSymbolsModel 9 1000 sampleLineMap initialState).textMapping (.path 0)).symbolNumber
        = n ∧
      (exportObjectsModel sampleLineMap (exportSymbolsModel 9 1000 sampleLineMap initialState)).table
        = (exportSymbolsModel 9 1000 sampleLineMap initialState).table :=
  objects_find_symbol_numbers 9 1000 sampleLineMap initialState 0
    ⟨1, 0, .line ⟨some 3, 20, .flat, false, false, none, none, none, none⟩⟩
    (by decide) (by decide)

/-- Helper: when setup succeeds, the export completes and the final file
state keeps setup's notes fields and extends setup's warnings. -/
theorem exportImplementationModel_of_setup (version : ℕ) (factor : ℤ) (m : MapModel)
    (S : ExportState) (hS : exportSetupModel version m initialState = (S, none)) :
    ∃ f, (exportImplementationModel version factor m).written = some f ∧
      f.infoBytes = S.infoBytes ∧ f.infoSize = S.infoSize ∧
      (∃ w, f.warnings = S.warnings ++ w) ∧
      (exportImplementationModel version factor m).warnings = f.warnings := by
  have hext : StateExtends S (exportObjectsModel m (exportSymbolsModel version factor m S)) :=
    stateExtends_trans (exportSymbolsAux_extends version factor m m.symbols 0 S)
      (exportObjectsModel_extends m _)
  obtain ⟨⟨w, hw⟩, hib, his, _⟩ := hext
  simp only [exportImplementationModel, hS]
  exact ⟨_, rfl, hib, his, ⟨w, hw⟩, rfl⟩

/-- C8: map notes longer than the legacy 32767-byte limit, exported to
version 8, are truncated to fit (the stored notes are the first 23767 bytes
plus a terminating NUL — below the 32768-byte storage), and the warning list
returned by the export is non-empty. -/
theorem exportV8_notes_truncated (factor : ℤ) (m : MapModel)
    (hlong : 32767 < m.notes.length)
    (hcolors : m.numColors ≤ (if m.usesRegistrationColor then 255 else 256)) :
    ∃ f, (exportImplementationModel 8 factor m).written = some f ∧
      f.infoBytes = m.notes.take 23767 ++ [0] ∧
      f.infoBytes.length ≤ 32768 ∧
      f.infoBytes.length < m.notes.length + 1 ∧
      (exportImplementationModel 8 factor m).warnings ≠ [] := by
  have hne : m.notes.isEmpty = false := by
    cases hnl : m.notes with
    | nil => rw [hnl] at hlong; simp at hlong
    | cons a t => rfl
  have main : ∀ S : ExportState, exportSetupModel 8 m initialState = (S, none) →
      S.infoBytes = m.notes.take 23767 ++ [0] → S.warnings ≠ [] →
      ∃ f, (exportImplementationModel 8 factor m).written = some f ∧
        f.infoBytes = m.notes.take 23767 ++ [0] ∧
        f.infoBytes.length ≤ 32768 ∧
        f.infoBytes.length < m.notes.length + 1 ∧
        (exportImplementationModel 8 factor m).warnings ≠ [] := by
    intro S hS hib0 hwne
    obtain ⟨f, hwr, hib, _, ⟨w, hw⟩, hwarn⟩ :=
      exportImplementationModel_of_setup 8 factor m S hS
    refine ⟨f, hwr, hib.trans hib0, ?_, ?_, ?_⟩
    · rw [hib, hib0]
      simp only [List.length_append, List.length_take, List.length_cons, List.length_nil]
      omega
    · rw [hib, hib0]
      simp only [List.length_append, List.length_take, List.length_cons, List.length_nil]
      omega
    · rw [hwarn, hw]
      intro hcontra
      exact hwne (List.append_eq_nil.mp hcontra).1
  by_cases hreg : m.usesRegistrationColor = true
  · rw [hreg] at hcolors
    simp only [if_true] at hcolors
    refine main
      { table := [], anon := [], records := [],
        warnings := [.workInProgress, .registrationExported, .spotColorsIgnored],
        textMapping := [], objects := [], stringsTags := [],
        infoBytes := m.notes.take 23767 ++ [0], infoSize := 32768 } ?_ rfl (by simp)
    show exportSetupV8Model m initialState = _
    unfold exportSetupV8Model
    simp only [hne, Bool.false_eq_true, if_false, hreg, if_true,
      if_pos (show 32768 < m.notes.length + 1 by omega),
      if_neg (show ¬ (255 < m.numColors) by omega)]
    rfl
  · have hreg' : m.usesRegistrationColor = false := by
      cases hb : m.usesRegistrationColor
      · rfl
      · exact absurd hb hreg
    rw [hreg'] at hcolors
    simp only [Bool.false_eq_true, if_false] at hcolors
    refine main
      { table := [], anon := [], records := [],
        warnings := [.workInProgress, .spotColorsIgnored],
        textMapping := [], objects := [], stringsTags := [],
        infoBytes := m.notes.take 23767 ++ [0], infoSize := 32768 } ?_ rfl (by simp)
    show exportSetupV8Model m initialState = _
    unfold exportSetupV8Model
    simp only [hne, Bool.false_eq_true, if_false, hreg',
      if_pos (show 32768 < m.notes.length + 1 by omega),
      if_neg (show ¬ (256 < m.numColors) by omega)]
    rfl

/-- C8 (witness): the theorem applied to a map with 40000 bytes of notes and
no colors. -/
theorem exportV8_notes_truncated_witness :
    ∃ f, (exportImplementationModel 8 1000
        ⟨0, false, List.replicate 40000 65, [], []⟩).written = some f ∧
      f.infoBytes = (List.replicate 40000 65).take 23767 ++ [0] ∧
      f.infoBytes.length ≤ 32768 ∧
      f.infoBytes.length < (List.replicate 40000 (65 : ℕ)).length + 1 ∧
      (exportImplementationModel 8 1000
        ⟨0, false, List.replicate 40000 65, [], []⟩).warnings ≠ [] :=
  exportV8_notes_truncated 1000 ⟨0, false, List.replicate 40000 65, [], []⟩
    (by rw [List.length_replicate]; norm_num) (by norm_num)

/-! ## Color index conversion (C7) -/

/-- Linear scan returning the position of the first occurrence of `c`,
counting from `i0`, or -1 when absent. -/
def findColorIndexAux (c : ℤ) : List ℤ → ℤ → ℤ
  | [], _ => -1
  | x :: xs, i => if x = c then i else findColorIndexAux c xs (i + 1)

/-- Modelled from the spec: `Map::findColorIndex` (core/map, not in src)
returns a color's table position, negative when the color is not in the
table. -/
def findColorIndex (colors : List ℤ) (c : ℤ) : ℤ := findColorIndexAux c colors 0

/-- Model of `convertColor` (`part_000:2064`, `ocd_file_export.cpp:1598`): a
color found in the table converts to its position, shifted by +1 when a
registration-color entry was synthesized ahead of all map colors; any other
color converts to index 0. -/
def convertColor (usesRegistrationColor : Bool) (colors : List ℤ) (c : ℤ) : ℤ :=
  let index := findColorIndex colors c
  if 0 ≤ index then (if usesRegistrationColor then index + 1 else index) else 0

/-- Helper: the scan misses colors that are not in the table. -/
theorem findColorIndexAux_not_mem (c : ℤ) :
    ∀ (l : List ℤ) (i0 : ℤ), c ∉ l → findColorIndexAux c l i0 = -1 := by
  intro l
  induction l with
  | nil => intro i0 _; rfl
  | cons x xs ih =>
    intro i0 hmem
    have hx : ¬ (x = c) := fun h => hmem (h ▸ List.mem_cons_self x xs)
    simp only [findColorIndexAux, if_neg hx]
    exact ih (i0 + 1) (fun h => hmem (List.mem_cons_of_mem x h))

/-- Helper: the scan finds the first occurrence of a color. -/
theorem findColorIndexAux_mem (c : ℤ) :
    ∀ (l : List ℤ) (i : ℕ) (i0 : ℤ), l.get? i = some c → c ∉ l.take i →
      findColorIndexAux c l i0 = i0 + i := by
  intro l
  induction l with
  | nil => intro i i0 h _; simp at h
  | cons x xs ih =>
    intro i i0 h hnot
    cases i with
    | zero =>
      simp only [List.get?_cons_zero, Option.some.injEq] at h
      simp only [findColorIndexAux, if_pos h, Nat.cast_zero, add_zero]
    | succ i' =>
      simp only [List.get?_cons_succ] at h
      simp only [List.take_succ_cons, List.mem_cons, not_or] at hnot
      have hx : ¬ (x = c) := fun hh => hnot.1 hh.symm
      simp only [findColorIndexAux, if_neg hx]
      rw [ih i' (i0 + 1) h hnot.2]
      push_cast
      ring

/-- C7: `convertColor` maps a color present in the color table to its first
table position, shifted by +1 exactly when a registration-color entry is
synthesized ahead of all map colors, and maps any color not present in the
table to index 0. -/
theorem convertColor_spec (usesReg : Bool) (colors : List ℤ) (c : ℤ) :
    (c ∉ colors → convertColor usesReg colors c = 0) ∧
    (∀ i : ℕ, colors.get? i = some c → c ∉ colors.take i →
      convertColor usesReg colors c = if usesReg then (i : ℤ) + 1 else (i : ℤ)) := by
  constructor
  · intro hmem
    unfold convertColor findColorIndex
    rw [findColorIndexAux_not_mem c colors 0 hmem]
    rfl
  · intro i hget hfirst
    unfold convertColor findColorIndex
    rw [findColorIndexAux_mem c colors i 0 hget hfirst]
    rw [if_pos (by positivity)]
    simp

/-- C7 (witness): the theorem applied to the table [7, 9] with the
registration shift, looking up color 9 (position 1, converted to 2) — and to
the absent color 5 (converted to 0). -/
theorem convertColor_spec_witness :
    (convertColor true [7, 9] 9 = if true then ((1 : ℕ) : ℤ) + 1 else ((1 : ℕ) : ℤ)) ∧
    convertColor true [7, 9] 5 = 0 :=
  ⟨(convertColor_spec true [7, 9] 9).2 1 (by decide) (by decide),
   (convertColor_spec true [7, 9] 5).1 (by decide)⟩

/-! ## Object index entry size (C9) -/

/-- Modelled from the spec: `Ocd::addPadding` (ocd_types.h, not in src) pads
a record to the next multiple of `sizeof(Ocd::OcdPoint32) = 8` bytes. -/
def paddedSize (n : ℕ) : ℕ := 8 * ((n + 7) / 8)

/-- Model of the index entry size computation of `exportObjectCommon`
(`part_000:2042`, `ocd_file_export.cpp:1574`): the padded record byte count;
for versions before 11 the header size is subtracted and the result is
divided by `sizeof(Ocd::OcdPoint32)`. -/
def indexEntrySize (version headerSize dataSize : ℕ) : ℕ :=
  let padded := paddedSize dataSize
  if version < 11 then (padded - headerSize) / 8 else padded

/-- C9: for an object record of `headerSize` header bytes (a multiple of 8,
as all object record headers are) and `k` coordinate-pair items of 8 bytes
each, the stored index entry size is the padded record byte count for the
newest format revisions (versions 11 and 12), but for formats before version
11 it excludes the record header and is expressed in units of one
`OcdPoint32` (i.e. it equals `k`); the switch is gated on `version < 11`. -/
theorem object_index_entry_size (version headerSize k : ℕ) (hh : 8 ∣ headerSize) :
    (version < 11 → indexEntrySize version headerSize (headerSize + 8 * k) = k) ∧
    (11 ≤ version →
      indexEntrySize version headerSize (headerSize + 8 * k) = headerSize + 8 * k) := by
  obtain ⟨t, rfl⟩ := hh
  unfold indexEntrySize paddedSize
  constructor
  · intro hv
    rw [if_pos hv]
    omega
  · intro hv
    rw [if_neg (by omega)]
    omega

/-- C9 (witness): the theorem applied at header size 32 and 3 coordinate
pairs, for version 9 (3 coordinate-pair units) and version 12 (56 padded
bytes). -/
theorem object_index_entry_size_witness :
    indexEntrySize 9 32 (32 + 8 * 3) = 3 ∧ indexEntrySize 12 32 (32 + 8 * 3) = 32 + 8 * 3 :=
  ⟨(object_index_entry_size 9 32 3 (by norm_num)).1 (by norm_num),
   (object_index_entry_size 12 32 3 (by norm_num)).2 (by norm_num)⟩

end OcdExport
